import Mathlib

/-!
Verification development for the Gymbo gradient-guided symbolic execution
engine.  The definitions below are shallow embeddings of the C++ sources
(`libgymbo/type.h`, `utils.h`, `symbolic.h`, `gd.h`, `sat.h`, `tokenizer.h`,
`parser.h`, `compiler.h`, `psymbolic.h`).  Conventions of the embedding:

* `Word32` payloads are idealized as exact rationals: the C++ code stores
  either raw small integers (jump offsets, variable ids) or IEEE-754 float
  bit patterns in a `uint32_t`; we keep the numeric value itself, so
  `FloatToWord`/`wordToFloat` become the identity and float arithmetic is
  exact rational arithmetic.  `wordToInt` (the `static_cast<int>` of a
  `uint32_t`) is modelled as the centred residue mod 2^32 of the integer
  part, which coincides with the C++ cast whenever the word holds an
  integer value.
* `std::unordered_map` is modelled as an insertion-ordered association
  list; `emplace` inserts only when the key is absent (never overwrites),
  `.at(k) = v` overwrites an existing binding.
* C++ fields that a constructor leaves uninitialized (e.g. `var_idx` of an
  `SCon` node) are modelled by a fixed junk value `0`; no theorem below
  depends on the value chosen, except where explicitly noted.
* Mutation is turned into explicit state passing; `std::vector` and maps
  are values (C++ copies them by value in `SymState::copy`).
-/

namespace gymbo

/-- Word32: the 32-bit payload of instructions and symbolic constants,
idealized as an exact rational (see the header comment). -/
abbrev Word32 := Rat

/-- FloatToWord: bit-reinterpretation float→uint32 in C++; identity under
the rational idealization. -/
def FloatToWord (v : Rat) : Word32 := v

/-- wordToFloat: bit-reinterpretation uint32→float in C++; identity under
the rational idealization. -/
def wordToFloat (w : Word32) : Rat := w

/-- wAdd: rational addition.  The standard `Rat` arithmetic of the library
is `@[irreducible]`; the `w`-prefixed operations below are definitionally
equal spellings via `mkRat` that the kernel can evaluate, used so that
concrete witnesses reduce by `decide`. -/
def wAdd (a b : Rat) : Rat := mkRat (a.num * b.den + b.num * a.den) (a.den * b.den)

/-- wSub: rational subtraction (see `wAdd`). -/
def wSub (a b : Rat) : Rat := mkRat (a.num * b.den - b.num * a.den) (a.den * b.den)

/-- wMul: rational multiplication (see `wAdd`). -/
def wMul (a b : Rat) : Rat := mkRat (a.num * b.num) (a.den * b.den)

/-- wNeg: rational negation (see `wAdd`). -/
def wNeg (a : Rat) : Rat := mkRat (-a.num) a.den

/-- wAbs: `std::abs` on the rational idealization of floats. -/
def wAbs (a : Rat) : Rat := if a < 0 then wNeg a else a

/-- wMax: `std::max` on the rational idealization of floats. -/
def wMax (a b : Rat) : Rat := if a ≤ b then b else a

/-- wordToInt: `static_cast<int>(word)`.  On integer-valued words this is
the centred residue of the value mod 2^32, exactly the value of the C++
cast (uint32 wrap-around composed with the int32 reinterpretation). -/
def wordToInt (w : Word32) : Int := ((w.floor + 2 ^ 31) % 2 ^ 32) - 2 ^ 31

/-- is_integer: `std::floor(x) == x`. -/
def is_integer (x : Rat) : Bool := decide ((x.floor : Rat) = x)

/-- mapFind?: `unordered_map::find`, returning the bound value if present. -/
def mapFind? {α β : Type} [DecidableEq α] (m : List (α × β)) (k : α) :
    Option β :=
  match m with
  | [] => none
  | p :: rest => if p.1 = k then some p.2 else mapFind? rest k

/-- mapFindD: lookup with a default (used where the C++ is guarded by a
preceding `find`, or where `.at` would throw). -/
def mapFindD {α β : Type} [DecidableEq α] (m : List (α × β)) (k : α)
    (d : β) : β :=
  (mapFind? m k).getD d

/-- mapEmplace: `unordered_map::emplace` — inserts only when the key is
absent; an emplace on a present key is a no-op. -/
def mapEmplace {α β : Type} [DecidableEq α] (m : List (α × β)) (k : α)
    (v : β) : List (α × β) :=
  if (mapFind? m k).isSome then m else m ++ [(k, v)]

/-- mapSet: `map.at(k) = v` — overwrites an existing binding (the C++
would throw on a missing key; all call sites are guarded by `find`). -/
def mapSet {α β : Type} [DecidableEq α] (m : List (α × β)) (k : α)
    (v : β) : List (α × β) :=
  m.map (fun p => if p.1 = k then (k, v) else p)

/-- SymType: the tag enum of symbolic expressions (`type.h`). -/
inductive SymType : Type
  | sadd | ssub | smul | seq | snot | sor | scon | scnt | sand | slt | sle
  | sany
deriving DecidableEq, Repr

/-- Sym: symbolic expression trees (`type.h`).  The C++ struct is a single
tagged record with child pointers; we use an inductive tree (children are
immutable after construction, so sharing is unobservable).  `assign` is a
field of every C++ node but is only ever non-empty on `SCnt` nodes. -/
inductive Sym : Type
  | scon (word : Word32)
  | sany (var_idx : Int)
  | sadd (left right : Sym)
  | ssub (left right : Sym)
  | smul (left right : Sym)
  | seq (left right : Sym)
  | slt (left right : Sym)
  | sle (left right : Sym)
  | sand (left right : Sym)
  | sor (left right : Sym)
  | snot (left : Sym)
  | scnt (left : Sym) (assign : List (Int × Rat))
deriving DecidableEq, Repr
namespace Sym

/-- symtype: the tag of a node. -/
def symtype : Sym → SymType
  | .scon _ => .scon
  | .sany _ => .sany
  | .sadd _ _ => .sadd
  | .ssub _ _ => .ssub
  | .smul _ _ => .smul
  | .seq _ _ => .seq
  | .slt _ _ => .slt
  | .sle _ _ => .sle
  | .sand _ _ => .sand
  | .sor _ _ => .sor
  | .snot _ => .snot
  | .scnt _ _ => .scnt

/-- word: the `word` field.  In C++ it is set only by the `SCon`
constructor and is indeterminate on other nodes; we return the junk
value 0 there. -/
def word : Sym → Word32
  | .scon w => w
  | _ => 0

/-- var_idx: the `var_idx` field.  In C++ it is set only by the `SAny`
constructor and is indeterminate on other nodes; we return the junk
value 0 there. -/
def var_idx : Sym → Int
  | .sany i => i
  | _ => 0

/-- ratToIntString: `std::to_string((int)x)`; only applied when
`is_integer x` holds, where the int cast equals the floor. -/
def ratToIntString (x : Rat) : String := toString x.floor

/-- ratToFixed6: `std::to_string(float)` formats with 6 fixed decimals; we
round the magnitude half-up.  Only non-integer constants reach this
branch, and no theorem below evaluates it. -/
def ratToFixed6 (x : Rat) : String :=
  let ax : Rat := wAbs x
  let scaled : Int := (wAdd (wMul ax 1000000) (mkRat 1 2)).floor
  let ip : Int := scaled / 1000000
  let fp : Int := scaled % 1000000
  let fpStr : String := toString fp
  let pad : String :=
    String.mk (List.replicate (6 - fpStr.length) '0') ++ fpStr
  (if x < 0 then "-" else "") ++ toString ip ++ "." ++ pad

/-- assignPairToString: one `k->v,` fragment of the `SCnt` assign map. -/
def assignPairToString (a : Int × Rat) : String :=
  toString a.1 ++ "->" ++
    (if is_integer a.2 then ratToIntString a.2 ++ "," else ratToFixed6 a.2 ++ ",")

/-- toString: `Sym::toString(convert_to_num)` from `type.h`. -/
def toString : Sym → Bool → String
  | .sadd l r, c => "(" ++ toString l c ++ "+" ++ toString r c ++ ")"
  | .ssub l r, c => "(" ++ toString l c ++ "-" ++ toString r c ++ ")"
  | .smul l r, c => "(" ++ toString l c ++ "*" ++ toString r c ++ ")"
  | .scon w, c =>
      if c then
        if is_integer (wordToFloat w) then ratToIntString (wordToFloat w)
        else ratToFixed6 (wordToFloat w)
      else ratToIntString w
  | .scnt l asg, c =>
      "[" ++ toString l c ++
        (if asg.length ≠ 0 then
          "\x7b" ++ String.join (asg.map assignPairToString) ++ "\x7d"
        else "") ++ "]"
  | .sany i, _ => "var_" ++ ToString.toString i
  | .seq l r, c => "(" ++ toString l c ++ "==" ++ toString r c ++ ")"
  | .snot l, c => "!" ++ toString l c
  | .sand l r, c => "(" ++ toString l c ++ "&&" ++ toString r c ++ ")"
  | .sor l r, c => "(" ++ toString l c ++ "||" ++ toString r c ++ ")"
  | .slt l r, c => "(" ++ toString l c ++ "<" ++ toString r c ++ ")"
  | .sle l r, c => "(" ++ toString l c ++ "<=" ++ toString r c ++ ")"

/-- gather_var_ids: collect the free input-variable ids (`type.h`); the
C++ accumulates into an `unordered_set`, modelled as an insertion-ordered
duplicate-free list.  `SCnt` erases the ids bound by its assign map. -/
def gather_var_ids : Sym → List Int → List Int
  | .sadd l r, acc => gather_var_ids r (gather_var_ids l acc)
  | .ssub l r, acc => gather_var_ids r (gather_var_ids l acc)
  | .smul l r, acc => gather_var_ids r (gather_var_ids l acc)
  | .sany i, acc => if i ∈ acc then acc else acc ++ [i]
  | .seq l r, acc => gather_var_ids r (gather_var_ids l acc)
  | .snot l, acc => gather_var_ids l acc
  | .scnt l asg, acc =>
      (gather_var_ids l acc).filter (fun i => ¬ (i ∈ asg.map Prod.fst))
  | .sand l r, acc => gather_var_ids r (gather_var_ids l acc)
  | .sor l r, acc => gather_var_ids r (gather_var_ids l acc)
  | .slt l r, acc => gather_var_ids r (gather_var_ids l acc)
  | .sle l r, acc => gather_var_ids r (gather_var_ids l acc)
  | .scon _, acc => acc

/-- psimplify: fold concretely-known subexpressions (`type.h`).  `SAny`
looks up the concrete memory; arithmetic nodes whose (possibly
recursively simplified) children are both `SCon` are folded; comparison
and boolean nodes recurse; `SCnt` drops its assign map (as the two-field
C++ constructor leaves it empty). -/
def psimplify (s : Sym) (cvals : List (Int × Word32)) : Sym :=
  match s with
  | .sany i =>
      match mapFind? cvals i with
      | some v => .scon v
      | none => .sany i
  | .sadd l r =>
      if l.symtype = .scon ∧ r.symtype = .scon then
        .scon (FloatToWord (wAdd (wordToFloat l.word) (wordToFloat r.word)))
      else
        let tl := psimplify l cvals
        let tr := psimplify r cvals
        if tl.symtype = .scon ∧ tr.symtype = .scon then
          .scon (FloatToWord (wAdd (wordToFloat tl.word) (wordToFloat tr.word)))
        else .sadd tl tr
  | .ssub l r =>
      if l.symtype = .scon ∧ r.symtype = .scon then
        .scon (FloatToWord (wSub (wordToFloat l.word) (wordToFloat r.word)))
      else
        let tl := psimplify l cvals
        let tr := psimplify r cvals
        if tl.symtype = .scon ∧ tr.symtype = .scon then
          .scon (FloatToWord (wSub (wordToFloat tl.word) (wordToFloat tr.word)))
        else .ssub tl tr
  | .smul l r =>
      if l.symtype = .scon ∧ r.symtype = .scon then
        .scon (FloatToWord (wMul (wordToFloat l.word) (wordToFloat r.word)))
      else
        let tl := psimplify l cvals
        let tr := psimplify r cvals
        if tl.symtype = .scon ∧ tr.symtype = .scon then
          .scon (FloatToWord (wMul (wordToFloat tl.word) (wordToFloat tr.word)))
        else .smul tl tr
  | .seq l r => .seq (psimplify l cvals) (psimplify r cvals)
  | .sand l r => .sand (psimplify l cvals) (psimplify r cvals)
  | .sor l r => .sor (psimplify l cvals) (psimplify r cvals)
  | .slt l r => .slt (psimplify l cvals) (psimplify r cvals)
  | .sle l r => .sle (psimplify l cvals) (psimplify r cvals)
  | .snot l => .snot (psimplify l cvals)
  | .scnt l _ => .scnt (psimplify l cvals) []
  | .scon w => .scon w

/-- eval: the differentiable loss of a symbolic expression (`type.h`).
`cvals.at(var_idx)` throws in C++ when the variable is missing; we return
the junk value 0 there (all theorems below evaluate with every free
variable bound). -/
def eval (s : Sym) (cvals : List (Int × Rat)) (eps : Rat) : Rat :=
  match s with
  | .sadd l r => wAdd (eval l cvals eps) (eval r cvals eps)
  | .ssub l r => wSub (eval l cvals eps) (eval r cvals eps)
  | .smul l r => wMul (eval l cvals eps) (eval r cvals eps)
  | .scon w => wordToFloat w
  | .scnt l _ =>
      match l.symtype with
      | .sadd => 1
      | .ssub => 1
      | .smul => 1
      | .scon => 1
      | .scnt => 1
      | .sany => 1
      | _ => if eval l cvals eps ≤ 0 then 1 else 0
  | .sany i => mapFindD cvals i 0
  | .seq l r => wAbs (wSub (eval l cvals eps) (eval r cvals eps))
  | .snot l => wAdd (wMul (eval l cvals eps) (wNeg 1)) eps
  | .sand l r =>
      wAdd (wMax 0 (eval l cvals eps)) (wMax 0 (eval r cvals eps))
  | .sor l r =>
      wMul (wMax 0 (eval l cvals eps)) (wMax 0 (eval r cvals eps))
  | .slt l r => wAdd (wSub (eval l cvals eps) (eval r cvals eps)) eps
  | .sle l r => wSub (eval l cvals eps) (eval r cvals eps)
end Sym

/-- Grad: sparse gradient map (`type.h`). -/
structure Grad : Type where
  val : List (Int × Rat)
deriving DecidableEq, Repr
namespace Grad

/-- add: `Grad::operator+(Grad)` — update the common keys in place, then
emplace the keys present only in `other`. -/
def add (g other : Grad) : Grad :=
  let result := g.val.map (fun r =>
    match mapFind? other.val r.1 with
    | some v => (r.1, wAdd r.2 v)
    | none => r)
  let result := other.val.foldl (fun acc r =>
    if (mapFind? acc r.1).isSome then acc else acc ++ [r]) result
  ⟨result⟩

/-- sub: `Grad::operator-(Grad)`. -/
def sub (g other : Grad) : Grad :=
  let result := g.val.map (fun r =>
    match mapFind? other.val r.1 with
    | some v => (r.1, wSub r.2 v)
    | none => r)
  let result := other.val.foldl (fun acc r =>
    if (mapFind? acc r.1).isSome then acc else acc ++ [(r.1, wMul (wNeg 1) r.2)])
    result
  ⟨result⟩

/-- smulc: `Grad::operator*(float)` — scale every entry. -/
def smulc (g : Grad) (w : Rat) : Grad :=
  ⟨g.val.map (fun r => (r.1, wMul r.2 w))⟩

/-- abs: `Grad::abs` — copies `val` and then `emplace`s `(key, |value|)`
for every entry of the copy.  Since `emplace` never overwrites a present
key, every iteration is a no-op (see claim C10). -/
def abs (g : Grad) : Grad :=
  ⟨g.val.foldl (fun acc r => mapEmplace acc r.1 (wAbs r.2)) g.val⟩
end Grad

/-- grad: the (sub)gradient of the loss (`Sym::grad` in `type.h`). -/
def Sym.grad (s : Sym) (cvals : List (Int × Rat)) (eps : Rat) : Grad :=
  match s with
  | .sadd l r => (grad l cvals eps).add (grad r cvals eps)
  | .ssub l r => (grad l cvals eps).sub (grad r cvals eps)
  | .smul l r =>
      ((grad l cvals eps).smulc (Sym.eval r cvals eps)).add
        ((grad r cvals eps).smulc (Sym.eval l cvals eps))
  | .scon _ => ⟨[]⟩
  | .scnt l _ =>
      match l.symtype with
      | .sadd => ⟨[]⟩
      | .ssub => ⟨[]⟩
      | .smul => ⟨[]⟩
      | .scon => ⟨[]⟩
      | .scnt => ⟨[]⟩
      | .sany => ⟨[]⟩
      | _ =>
          if Sym.eval l cvals eps ≤ 0 then grad l cvals eps
          else (grad l cvals eps).smulc (wNeg 1)
  | .sany i => ⟨[(i, 1)]⟩
  | .seq l r =>
      let lv := Sym.eval l cvals eps
      let rv := Sym.eval r cvals eps
      let lg := grad l cvals eps
      let rg := grad r cvals eps
      if lv = rv then ⟨[]⟩
      else if lv > rv then lg.sub rg
      else rg.sub lg
  | .snot l => (grad l cvals eps).smulc (wNeg 1)
  | .sand l r =>
      let lv := Sym.eval l cvals eps
      let rv := Sym.eval r cvals eps
      let res : Grad := ⟨[]⟩
      let res := if lv > 0 then res.add (grad l cvals eps) else res
      let res := if rv > 0 then res.add (grad r cvals eps) else res
      res
  | .sor l r =>
      let lv := Sym.eval l cvals eps
      let rv := Sym.eval r cvals eps
      if lv > 0 ∧ rv > 0 then
        ((grad l cvals eps).smulc rv).add ((grad r cvals eps).smulc lv)
      else ⟨[]⟩
  | .slt l r => (grad l cvals eps).sub (grad r cvals eps)
  | .sle l r => (grad l cvals eps).sub (grad r cvals eps)

/-- SymProb: a symbolic reach probability, numerator/denominator pair
(`type.h`).  The default constructor is `1.0 / 1.0`. -/
structure SymProb : Type where
  numerator : Sym := .scon (FloatToWord 1)
  denominator : Sym := .scon (FloatToWord 1)
deriving DecidableEq, Repr

/-- mul: `SymProb::operator*` — the textual cancellation rule of
`type.h` (compare `toString(true)` forms). -/
def SymProb.mul (p other : SymProb) : SymProb :=
  if p.denominator.toString true = other.numerator.toString true then
    ⟨p.numerator, other.denominator⟩
  else if p.numerator.toString true = other.denominator.toString true then
    ⟨other.numerator, p.denominator⟩
  else
    ⟨.smul p.numerator other.numerator, .smul p.denominator other.denominator⟩

/-- InstrType: the opcode enum (`type.h`). -/
inductive InstrType : Type
  | add | sub | mul | jmpIf | jmp | and | or | not | lt | le | eq | push
  | store | load | pop | read | print | swap | dup | over | rotL | done
  | nop
deriving DecidableEq, Repr

/-- Instr: an instruction; the one-argument C++ constructor leaves `word`
uninitialized, modelled by the junk default 0. -/
structure Instr : Type where
  instr : InstrType
  word : Word32 := 0
deriving DecidableEq, Repr

/-- SymState: the symbolic state (`type.h`).  The symbolic stack is the
value sequence of the doubly-linked `Linkedlist<Sym>`, with the list head
holding the stack top (the C++ pushes/pops at the linked-list tail); the
pointer-level structure of the linked list is modelled separately for
claim C4. -/
structure SymState : Type where
  pc : Int := 0
  var_cnt : Int := 0
  mem : List (Int × Word32) := []
  smem : List (Int × Sym) := []
  symbolic_stack : List Sym := []
  path_constraints : List Sym := []
  p : SymProb := {}
  has_observed_p_cond : Bool := false
deriving DecidableEq, Repr

/-- junkSym: the value read through a null/dangling pointer in C++ (e.g.
`back()` of an empty stack); no theorem depends on it. -/
def junkSym : Sym := .scon 0

/-- symStep: the one-instruction symbolic transfer function
(`symbolic.h`).  Returns the list of successor states (the C++ fills
`result` with pointers; in-place mutation becomes functional update). -/
def symStep (state : SymState) (instr : Instr) : List SymState :=
  match instr.instr with
  | .not =>
      let w := state.symbolic_stack.headD junkSym
      [{ state with pc := state.pc + 1,
                    symbolic_stack := .snot w :: state.symbolic_stack.tail }]
  | .add =>
      let r := state.symbolic_stack.headD junkSym
      let l := state.symbolic_stack.tail.headD junkSym
      [{ state with pc := state.pc + 1,
                    symbolic_stack :=
                      .sadd l r :: state.symbolic_stack.tail.tail }]
  | .sub =>
      let r := state.symbolic_stack.headD junkSym
      let l := state.symbolic_stack.tail.headD junkSym
      [{ state with pc := state.pc + 1,
                    symbolic_stack :=
                      .ssub l r :: state.symbolic_stack.tail.tail }]
  | .mul =>
      let r := state.symbolic_stack.headD junkSym
      let l := state.symbolic_stack.tail.headD junkSym
      [{ state with pc := state.pc + 1,
                    symbolic_stack :=
                      .smul l r :: state.symbolic_stack.tail.tail }]
  | .and =>
      let r := state.symbolic_stack.headD junkSym
      let l := state.symbolic_stack.tail.headD junkSym
      [{ state with pc := state.pc + 1,
                    symbolic_stack :=
                      .sand l r :: state.symbolic_stack.tail.tail }]
  | .or =>
      let r := state.symbolic_stack.headD junkSym
      let l := state.symbolic_stack.tail.headD junkSym
      [{ state with pc := state.pc + 1,
                    symbolic_stack :=
                      .sor l r :: state.symbolic_stack.tail.tail }]
  | .lt =>
      let r := state.symbolic_stack.headD junkSym
      let l := state.symbolic_stack.tail.headD junkSym
      [{ state with pc := state.pc + 1,
                    symbolic_stack :=
                      .slt l r :: state.symbolic_stack.tail.tail }]
  | .le =>
      let r := state.symbolic_stack.headD junkSym
      let l := state.symbolic_stack.tail.headD junkSym
      [{ state with pc := state.pc + 1,
                    symbolic_stack :=
                      .sle l r :: state.symbolic_stack.tail.tail }]
  | .eq =>
      let r := state.symbolic_stack.headD junkSym
      let l := state.symbolic_stack.tail.headD junkSym
      [{ state with pc := state.pc + 1,
                    symbolic_stack :=
                      .seq l r :: state.symbolic_stack.tail.tail }]
  | .swap =>
      let x := state.symbolic_stack.headD junkSym
      let y := state.symbolic_stack.tail.headD junkSym
      [{ state with pc := state.pc + 1,
                    symbolic_stack :=
                      y :: x :: state.symbolic_stack.tail.tail }]
  | .store =>
      let addr := state.symbolic_stack.headD junkSym
      let w := state.symbolic_stack.tail.headD junkSym
      let st := state.symbolic_stack.tail.tail
      let state :=
        if w.symtype = SymType.scon then
          if (mapFind? state.mem (wordToInt addr.var_idx)).isNone then
            { state with
                mem := mapEmplace state.mem (wordToInt addr.var_idx) w.word }
          else
            { state with
                mem := mapSet state.mem (wordToInt addr.var_idx) w.word }
        else if w.symtype = SymType.sany ∧
            (mapFind? state.mem (wordToInt w.var_idx)).isSome then
          if (mapFind? state.mem (wordToInt addr.var_idx)).isNone then
            { state with
                mem := mapEmplace state.mem (wordToInt addr.var_idx)
                  (mapFindD state.mem (wordToInt w.var_idx) 0) }
          else
            { state with
                mem := mapSet state.mem (wordToInt addr.var_idx)
                  (mapFindD state.mem (wordToInt w.var_idx) 0) }
        else
          if (mapFind? state.smem (wordToInt addr.var_idx)).isNone then
            if (mapFind? state.smem (wordToInt w.var_idx)).isNone then
              { state with
                  smem := mapEmplace state.smem (wordToInt addr.var_idx) w }
            else
              { state with
                  smem := mapEmplace state.smem (wordToInt addr.var_idx)
                    (mapFindD state.smem (wordToInt w.var_idx) junkSym) }
          else
            if (mapFind? state.smem (wordToInt w.var_idx)).isNone then
              { state with
                  smem := mapSet state.smem (wordToInt addr.var_idx) w }
            else
              { state with
                  smem := mapSet state.smem (wordToInt addr.var_idx)
                    (mapFindD state.smem (wordToInt w.var_idx) junkSym) }
      [{ state with pc := state.pc + 1, symbolic_stack := st }]
  | .load =>
      let addr := state.symbolic_stack.headD junkSym
      let pushed :=
        match mapFind? state.smem (wordToInt addr.word) with
        | some v => v
        | none => Sym.sany (wordToInt addr.word)
      [{ state with pc := state.pc + 1,
                    symbolic_stack := pushed :: state.symbolic_stack.tail }]
  | .read =>
      [{ state with pc := state.pc + 1,
                    var_cnt := state.var_cnt + 1,
                    symbolic_stack :=
                      Sym.sany state.var_cnt :: state.symbolic_stack }]
  | .push =>
      [{ state with pc := state.pc + 1,
                    symbolic_stack :=
                      Sym.scon instr.word :: state.symbolic_stack }]
  | .dup =>
      let w := state.symbolic_stack.headD junkSym
      [{ state with pc := state.pc + 1,
                    symbolic_stack := w :: w :: state.symbolic_stack.tail }]
  | .pop =>
      [{ state with pc := state.pc + 1,
                    symbolic_stack := state.symbolic_stack.tail }]
  | .jmpIf =>
      let cond := (state.symbolic_stack.headD junkSym).psimplify state.mem
      let addr := state.symbolic_stack.tail.headD junkSym
      let st := state.symbolic_stack.tail.tail
      if addr.symtype = SymType.scon then
        let true_state : SymState :=
          { state with
              pc := state.pc + wordToInt (wSub addr.word 2),
              symbolic_stack := st,
              path_constraints := state.path_constraints ++ [cond] }
        let false_state : SymState :=
          { state with
              pc := state.pc + 1,
              symbolic_stack := st,
              path_constraints := state.path_constraints ++ [.snot cond] }
        [true_state, false_state]
      else []
  | .jmp =>
      let addr := state.symbolic_stack.headD junkSym
      [{ state with pc := state.pc + wordToInt addr.word,
                    symbolic_stack := state.symbolic_stack.tail }]
  | .nop => [{ state with pc := state.pc + 1 }]
  | .done => []
  | _ => []

/-- SymReach: reachability from one symbolic state to another by a finite
sequence of `symStep` transitions (with arbitrary instructions). -/
inductive SymReach : SymState → SymState → Prop
  | refl (s : SymState) : SymReach s s
  | step {s t u : SymState} (i : Instr) (h1 : SymReach s t)
      (h2 : u ∈ symStep t i) : SymReach s u

/-- c2Final: the state reached from the empty initial state by the
instruction chain `Push 1; Load; Push 0; Load; Store; Push 1; Read;
Store` — its address 0 is bound in both `mem` and `smem`. -/
def c2Final : SymState :=
  { pc := 8, var_cnt := 1, mem := [(0, 1)], smem := [(0, Sym.sany 1)] }

/-- GDOptimizer: the gradient-descent solver configuration (`gd.h`), with
the C++ default arguments.  `num_used_itr` bookkeeping is not tracked. -/
structure GDOptimizer : Type where
  num_epochs : Nat := 100
  lr : Rat := 1
  eps : Rat := 1
  param_low : Rat := -10
  param_high : Rat := 10
  sign_grad : Bool := true
  init_param_uniform_int : Bool := true
  seed : Int := 42

/-- eval: `GDOptimizer::eval` — all path constraints have non-positive
loss under `params`. -/
def GDOptimizer.eval (o : GDOptimizer) (path_constraints : List Sym)
    (params : List (Int × Rat)) : Bool :=
  path_constraints.foldl
    (fun result c => result && decide (Sym.eval c params o.eps ≤ 0)) true

/-- gdLoopBody: one iteration of the descent loop of
`GDOptimizer::solve`: accumulate the gradients of the violated
constraints, then update every non-constant parameter (by sign gradient
or raw gradient); returns the new parameters and the convergence flag
(`true` iff every updated coordinate's gradient was zero). -/
def gdLoopBody (o : GDOptimizer) (pcs : List Sym)
    (is_const : List (Int × Bool)) (params : List (Int × Rat)) :
    List (Int × Rat) × Bool :=
  let grads := pcs.foldl
    (fun g c =>
      if Sym.eval c params o.eps > 0 then g.add (Sym.grad c params o.eps)
      else g)
    (Grad.mk [])
  grads.val.foldl
    (fun acc g =>
      if ¬ mapFindD is_const g.1 false then
        let conv := if g.2 ≠ 0 then false else acc.2
        let params' :=
          if ¬ o.sign_grad then
            mapSet acc.1 g.1 (wSub (mapFindD acc.1 g.1 0) (wMul o.lr g.2))
          else
            let sign : Rat := if g.2 > 0 then 1 else if g.2 < 0 then wNeg 1 else 0
            mapSet acc.1 g.1 (wSub (mapFindD acc.1 g.1 0) (wMul o.lr sign))
        (params', conv)
      else acc)
    (params, true)

/-- gdLoop: the `while (!is_sat && !is_converge && itr < num_epochs)`
loop of `GDOptimizer::solve`, with the remaining epoch budget as fuel. -/
def gdLoop (o : GDOptimizer) (pcs : List Sym)
    (is_const : List (Int × Bool)) :
    Nat → List (Int × Rat) → Bool → Bool × List (Int × Rat)
  | 0, params, is_sat => (is_sat, params)
  | fuel + 1, params, is_sat =>
      if is_sat then (is_sat, params)
      else
        let r := gdLoopBody o pcs is_const params
        let is_sat' := o.eval pcs r.1
        if r.2 then (is_sat', r.1)
        else gdLoop o pcs is_const fuel r.1 is_sat'

/-- solve: `GDOptimizer::solve`.  The `mt19937`/uniform-distribution
draws used to initialize absent parameters are abstracted by the stream
`draws` (one value per actual sample, in order); the claims proved below
hold for every stream.  Returns the final satisfiability flag together
with the final parameter map. -/
def GDOptimizer.solve (o : GDOptimizer) (path_constraints : List Sym)
    (params : List (Int × Rat)) (draws : Nat → Rat)
    (is_init_params_const : Bool) : Bool × List (Int × Rat) :=
  if path_constraints.length = 0 then (true, params)
  else
    let unique_var_ids :=
      path_constraints.foldl (fun acc c => Sym.gather_var_ids c acc) []
    let init := unique_var_ids.foldl
      (fun (acc : (List (Int × Rat)) × (List (Int × Bool)) × Nat) i =>
        if (mapFind? acc.1 i).isSome then
          (acc.1, mapEmplace acc.2.1 i is_init_params_const, acc.2.2)
        else
          (mapEmplace acc.1 i (draws acc.2.2), mapEmplace acc.2.1 i false,
           acc.2.2 + 1))
      (params, [], 0)
    let is_sat := o.eval path_constraints init.1
    gdLoop o path_constraints init.2.1 o.num_epochs init.1 is_sat
end gymbo
namespace gymbosat

/-- Expr: the propositional skeleton of the DPLL layer (`sat.h`), the
tagged sum {Var, And, Or, Not, Const}. -/
inductive Expr : Type
  | evar (name : String)
  | eand (left right : Expr)
  | eor (left right : Expr)
  | enot (e : Expr)
  | econst (value : Bool)
deriving DecidableEq, Repr

/-- to_string: the `to_string` of each `Expr` subclass in `sat.h`. -/
def Expr.to_string : Expr → String
  | .evar n => n
  | .eand l r => "(" ++ l.to_string ++ " && " ++ r.to_string ++ ")"
  | .eor l r => "(" ++ l.to_string ++ " || " ++ r.to_string ++ ")"
  | .enot e => "(!(" ++ e.to_string ++ "))"
  | .econst v => if v then "True" else "False"

/-- fixNegAux: `fixNegations` of `sat.h`, with a flag selecting the
receiver: `fixNegAux e false` is `e->fixNegations()` for a non-Not node
(`Var`/`Const` return themselves, `And`/`Or` recurse), and
`fixNegAux e true` is `Not(e)->fixNegations()` (the C++ dispatches on the
child's `to_string`/opcode; `Not(And l r)` becomes
`Or(Not(l).fixNegations, Not(r).fixNegations)` and dually, spelled here
as the flagged recursive calls).  Note `Not(Not e2)` returns
`(Not e2).fixNegations()` — the C++ comment says `!!Var = Var` but only
one negation is eliminated. -/
def fixNegAux : Expr → Bool → Expr
  | .eand l r, false => .eand (fixNegAux l false) (fixNegAux r false)
  | .eor l r, false => .eor (fixNegAux l false) (fixNegAux r false)
  | .enot e, false => fixNegAux e true
  | .evar n, false => .evar n
  | .econst v, false => .econst v
  | e, true =>
      if e.to_string = "True" then .econst false
      else if e.to_string = "False" then .econst true
      else
        match e with
        | .evar n => .enot (.evar n)
        | .enot e2 => fixNegAux e2 true
        | .eand l r => .eor (fixNegAux l true) (fixNegAux r true)
        | .eor l r => .eand (fixNegAux l true) (fixNegAux r true)
        | .econst v => .enot (.econst v)

/-- fixNegations: `Expr::fixNegations` (push negations to literals). -/
def Expr.fixNegations (e : Expr) : Expr := fixNegAux e false

/-- sym2expr: abstract a symbolic constraint into its propositional
skeleton (`sat.h`); non-boolean nodes become `Var`s named by
`toString(true)` and are recorded in the unique-term map (the C++ maps
the name to the `Sym*`; `insert` never overwrites). -/
def sym2expr (s : gymbo.Sym) (m : List (String × gymbo.Sym)) :
    Expr × List (String × gymbo.Sym) :=
  match s with
  | .sand l r =>
      let rl := sym2expr l m
      let rr := sym2expr r rl.2
      (.eand rl.1 rr.1, rr.2)
  | .snot l =>
      let rl := sym2expr l m
      (.enot rl.1, rl.2)
  | .sor l r =>
      let rl := sym2expr l m
      let rr := sym2expr r rl.2
      (.eor rl.1 rr.1, rr.2)
  | _ => (.evar (s.toString true), gymbo.mapEmplace m (s.toString true) s)

/-- pathconstraints2expr: the conjunction of the skeletons of all path
constraints (`sat.h`); the empty vector becomes `Const true`. -/
def pathconstraints2expr (constraints : List gymbo.Sym)
    (m : List (String × gymbo.Sym)) :
    Expr × List (String × gymbo.Sym) :=
  match constraints with
  | [] => (.econst true, m)
  | c :: rest =>
      rest.foldl
        (fun acc c' =>
          let r := sym2expr c' acc.2
          (.eand acc.1 r.1, r.2))
        (sym2expr c m)

/-- dpllNewConstraints: the signed-atom conjunction `smt_dpll_solver`
builds from a DPLL assignment — the atom itself for a `true` assignment,
`SNot` of it for a `false` one (`smt.h`). -/
def dpllNewConstraints (assignments : List (String × Bool))
    (unique_terms : List (String × gymbo.Sym)) : List gymbo.Sym :=
  assignments.foldl
    (fun acc a =>
      if a.2 then acc ++ [gymbo.mapFindD unique_terms a.1 gymbo.junkSym]
      else acc ++ [.snot (gymbo.mapFindD unique_terms a.1 gymbo.junkSym)])
    []
end gymbosat
namespace gymbo

/-- c3Atom: the atom `var_0 < 0` of the C3 failing input. -/
def c3Atom : Sym := .slt (.sany 0) (.scon 0)

/-- conjAll: the left-associated conjunction `C1 ∧ … ∧ Cn` of a list of
constraints (empty list: the junk head, unreachable under the theorems'
hypotheses). -/
def conjAll (cs : List Sym) : Sym :=
  (cs.drop 1).foldl (fun a c => Sym.sand a c) (cs.headD junkSym)

/-- pbranch: the probabilistic branching update (`psymbolic.h`).  In the
already-observed case the C++ builds `n_cond` by conjoining constraints
`0..n-2` in a loop and then appending constraint `n-1`, and `d_cond` by
conjoining constraints `0..n-2`; it then stores `cond_p = n_cond/d_cond`
and sets `p = p->pmul(cond_p)`.  Modelled from the spec: `SymProb::pmul`
and the `SymState::cond_p` member appear only in `psymbolic.h` and are
absent from the `type.h` in the sources; per spec §4.11/§3 the update is
the cancellation product `SymProb::operator*`, and only `p` is tracked
here. -/
def pbranch (state : SymState) : SymState :=
  let n := state.path_constraints.length
  if state.has_observed_p_cond then
    let base := state.path_constraints.headD junkSym
    let mid := (state.path_constraints.drop 1).dropLast
    let n_cond :=
      Sym.sand (mid.foldl (fun acc c => Sym.sand acc c) base)
        (state.path_constraints.getD (n - 1) junkSym)
    let d_cond := mid.foldl (fun acc c => Sym.sand acc c) base
    { state with p := state.p.mul ⟨n_cond, d_cond⟩ }
  else
    let n_cond :=
      if n = 0 then Sym.scon (FloatToWord 0)
      else
        (state.path_constraints.drop 1).foldl
          (fun acc c => Sym.sand acc c)
          (state.path_constraints.headD junkSym)
    { state with p := ⟨n_cond, Sym.scon (FloatToWord 1)⟩,
                 has_observed_p_cond := true }

/-- LLNodeH: a node of the doubly-linked `Linkedlist<Sym>` (`utils.h`),
with the C++ pointers as heap addresses. -/
structure LLNodeH : Type where
  data : Sym
  next : Option Nat := none
  prev : Option Nat := none
deriving DecidableEq, Repr

/-- HeapH: the allocation store for linked-list nodes; a node's address
is its index, and `new` returns the next fresh index. -/
abbrev HeapH := List LLNodeH

/-- LinkedlistH: the `Linkedlist<Sym>` header — ghost, head, and tail
node pointers.  The struct has no user-defined copy constructor, so a
`SymState` copy duplicates exactly these three addresses. -/
structure LinkedlistH : Type where
  ghost : Option Nat := none
  head : Option Nat := none
  tail : Option Nat := none
deriving DecidableEq, Repr

/-- heapSetNext: `node->next = nxt` at address `a`. -/
def heapSetNext (h : HeapH) (a : Nat) (nxt : Option Nat) : HeapH :=
  match h.get? a with
  | some n => h.set a { n with next := nxt }
  | none => h

/-- heapSetPrev: `node->prev = prv` at address `a`. -/
def heapSetPrev (h : HeapH) (a : Nat) (prv : Option Nat) : HeapH :=
  match h.get? a with
  | some n => h.set a { n with prev := prv }
  | none => h

/-- llPush: `Linkedlist::push` — allocate the node; an empty list points
head and tail at it, otherwise link it after the tail (`tail->next`,
`newNode->prev`) and move the tail. -/
def llPush (h : HeapH) (ll : LinkedlistH) (d : Sym) : HeapH × LinkedlistH :=
  let addr := h.length
  let h' := h ++ [{ data := d }]
  match ll.head with
  | none => (h', { ll with head := some addr, tail := some addr })
  | some _ =>
      match ll.tail with
      | some t =>
          let h'' := heapSetPrev (heapSetNext h' t (some addr)) addr ll.tail
          (h'', { ll with tail := some addr })
      | none => (h', ll)

/-- llLenAux: walk `next` pointers with fuel (the C++ `len` loop does not
terminate on a cyclic chain; the fuel is an upper bound for acyclic
ones). -/
def llLenAux (h : HeapH) : Option Nat → Nat → Nat
  | none, _ => 0
  | some _, 0 => 0
  | some a, fuel + 1 =>
      match h.get? a with
      | none => 0
      | some n => 1 + llLenAux h n.next fuel

/-- llLen: `Linkedlist::len` — count the nodes reachable from `head`. -/
def llLen (h : HeapH) (ll : LinkedlistH) : Nat :=
  llLenAux h ll.head (h.length + 1)

/-- llBack: `Linkedlist::back` — the data at the tail node (`none` models
the null-tail warning path). -/
def llBack (h : HeapH) (ll : LinkedlistH) : Option Sym :=
  match ll.tail with
  | none => none
  | some t => (h.get? t).map LLNodeH.data

/-- SymStateRef: the pointer-level view of `SymState` for claim C4: the
maps, the constraint vector, and `p` are values copied memberwise by
`SymState::copy`, while `symbolic_stack` is a `Linkedlist` header whose
nodes live in the shared heap. -/
structure SymStateRef : Type where
  mem : List (Int × Word32) := []
  smem : List (Int × Sym) := []
  symbolic_stack : LinkedlistH := {}
  path_constraints : List Sym := []
  p : SymProb := {}
deriving DecidableEq, Repr

/-- copy: `SymState::copy` — the memberwise copy: maps and vectors are
copied by value, and the `Linkedlist` header copies its three node
addresses, sharing the chain with the parent. -/
def SymStateRef.copy (s : SymStateRef) : SymStateRef :=
  { mem := s.mem, smem := s.smem, symbolic_stack := s.symbolic_stack,
    path_constraints := s.path_constraints, p := s.p }

/-- c4Push1: the heap and parent stack after pushing one element. -/
def c4Push1 : HeapH × LinkedlistH := llPush [] {} (Sym.scon 1)

/-- c4Parent: a parent state whose symbolic stack holds one node. -/
def c4Parent : SymStateRef := { symbolic_stack := c4Push1.2 }

/-- c4Push2: pushing onto the copy's stack mutates the shared heap. -/
def c4Push2 : HeapH × LinkedlistH :=
  llPush c4Push1.1 (c4Parent.copy).symbolic_stack (Sym.scon 2)

/-- intToWord: the implicit C++ `int`→`Word32` conversion used when an
instruction word is built from a variable offset or an instruction
count. -/
def intToWord (i : Int) : Word32 := mkRat i 1

/-- is_alpha: `[A-Za-z_]` (`tokenizer.h`). -/
def is_alpha (c : Char) : Bool :=
  ('a' ≤ c ∧ c ≤ 'z') ∨ ('A' ≤ c ∧ c ≤ 'Z') ∨ c = '_'

/-- is_alnum: `is_alpha` or a decimal digit (`tokenizer.h`). -/
def is_alnum (c : Char) : Bool := is_alpha c ∨ ('0' ≤ c ∧ c ≤ '9')

/-- isspaceM: the C `isspace` set. -/
def isspaceM (c : Char) : Bool :=
  c = ' ' ∨ c = '\t' ∨ c = '\n' ∨ c = '\x0b' ∨ c = '\x0c' ∨ c = '\r'

/-- isdigitM: the C `isdigit`. -/
def isdigitM (c : Char) : Bool := '0' ≤ c ∧ c ≤ '9'

/-- TokenKind: the token kind enum (`tokenizer.h`). -/
inductive TokenKind : Type
  | t_reserved | t_return | t_if | t_else | t_for | t_ident | t_num | t_eof
deriving DecidableEq, Repr

/-- TokenM: a token.  `str` holds the lexeme (the C++ keeps a pointer and
length into the source); `val` the parsed number for `t_num`; `var_id`
the interned id for `t_ident`.  Unused fields keep their junk
defaults. -/
structure TokenM : Type where
  kind : TokenKind
  str : String := ""
  val : Rat := 0
  var_id : Int := 0
deriving DecidableEq, Repr

/-- readDigitsAux: consume a run of decimal digits, returning the
accumulated value, the number of digits and the rest (the integer or
fraction part of `strtof`). -/
def readDigitsAux : List Char → Nat → Nat → Nat × Nat × List Char
  | c :: rest, acc, cnt =>
      if isdigitM c then readDigitsAux rest (acc * 10 + (c.toNat - 48)) (cnt + 1)
      else (acc, cnt, c :: rest)
  | [], acc, cnt => (acc, cnt, [])

/-- strtofM: the `strtof` call of the tokenizer on a decimal literal with
optional fractional part, as an exact rational. -/
def strtofM (cs : List Char) : Rat × List Char :=
  let ip := readDigitsAux cs 0 0
  match ip.2.2 with
  | '.' :: rest2 =>
      let fp := readDigitsAux rest2 0 0
      (wAdd (mkRat ip.1 1) (mkRat fp.1 (10 ^ fp.2.1)), fp.2.2)
  | rest => (mkRat ip.1 1, rest)

/-- readIdent: consume the `is_alnum` run of an identifier. -/
def readIdent : List Char → List Char × List Char
  | c :: rest =>
      if is_alnum c then
        let r := readIdent rest
        (c :: r.1, r.2)
      else ([], c :: rest)
  | [] => ([], [])

/-- twoCharOps: the multi-letter punctuators checked first by the
tokenizer. -/
def twoCharOps : List (List Char) :=
  [['=', '='], ['!', '='], ['<', '='], ['>', '='], ['&', '&'], ['|', '|']]

/-- singleCharPunct: the single-letter punctuator set `+-*/()<>=;{}`. -/
def singleCharPunct : List Char :=
  ['+', '-', '*', '/', '(', ')', '<', '>', '=', ';', '\x7b', '\x7d']

/-- tokenizeAux: the tokenizer loop (`tokenizer.h`), with fuel (each
iteration consumes at least one character, so `length + 1` suffices).
Lexing rules in source order: whitespace, two-character operators, the
keywords `if`/`else`/`return` (with a non-alnum boundary), single
punctuators, numeric literals, identifiers (interned into the
variable-counter map at its current size); anything else is the fatal
`invalid token`. -/
def tokenizeAux : Nat → List Char → List (String × Int) →
    Except String (List TokenM × List (String × Int))
  | 0, _, _ => .error "tokenizer fuel exhausted"
  | fuel + 1, cs, vc =>
      match cs with
      | [] => .ok ([{ kind := .t_eof }], vc)
      | c :: rest =>
          if isspaceM c then tokenizeAux fuel rest vc
          else if (cs.take 2) ∈ twoCharOps then
            match tokenizeAux fuel (cs.drop 2) vc with
            | .ok r =>
                .ok ({ kind := .t_reserved,
                       str := String.mk (cs.take 2) } :: r.1, r.2)
            | .error e => .error e
          else if cs.take 2 = ['i', 'f'] ∧ ¬ is_alnum ((cs.drop 2).headD '\x00') then
            match tokenizeAux fuel (cs.drop 2) vc with
            | .ok r => .ok ({ kind := .t_if, str := "if" } :: r.1, r.2)
            | .error e => .error e
          else if cs.take 4 = ['e', 'l', 's', 'e'] ∧
              ¬ is_alnum ((cs.drop 4).headD '\x00') then
            match tokenizeAux fuel (cs.drop 4) vc with
            | .ok r => .ok ({ kind := .t_else, str := "else" } :: r.1, r.2)
            | .error e => .error e
          else if cs.take 6 = ['r', 'e', 't', 'u', 'r', 'n'] ∧
              ¬ is_alnum ((cs.drop 6).headD '\x00') then
            match tokenizeAux fuel (cs.drop 6) vc with
            | .ok r => .ok ({ kind := .t_return, str := "return" } :: r.1, r.2)
            | .error e => .error e
          else if c ∈ singleCharPunct then
            match tokenizeAux fuel rest vc with
            | .ok r =>
                .ok ({ kind := .t_reserved, str := String.mk [c] } :: r.1, r.2)
            | .error e => .error e
          else if isdigitM c ∨ (c = '.' ∧ isdigitM (rest.headD '\x00')) then
            let nr := strtofM cs
            match tokenizeAux fuel nr.2 vc with
            | .ok r => .ok ({ kind := .t_num, val := nr.1 } :: r.1, r.2)
            | .error e => .error e
          else if is_alpha c then
            let idr := readIdent cs
            let var_name := String.mk idr.1
            let vc' :=
              if (mapFind? vc var_name).isSome then vc
              else mapEmplace vc var_name (Int.ofNat vc.length)
            let vid := mapFindD vc' var_name 0
            match tokenizeAux fuel idr.2 vc' with
            | .ok r =>
                .ok ({ kind := .t_ident, str := var_name, var_id := vid } :: r.1,
                     r.2)
            | .error e => .error e
          else .error "invalid token"

/-- tokenize: `tokenize(user_input, var_counter)` (`tokenizer.h`). -/
def tokenize (s : String) (vc : List (String × Int)) :
    Except String (List TokenM × List (String × Int)) :=
  tokenizeAux (s.length + 1) s.toList vc

/-- NodeKind: the AST node kinds (`parser.h`). -/
inductive NodeKind : Type
  | nd_add | nd_sub | nd_mul | nd_div | nd_and | nd_or | nd_not | nd_eq
  | nd_ne | nd_lt | nd_le | nd_assign | nd_lvar | nd_num | nd_return
  | nd_if | nd_for | nd_block
deriving DecidableEq, Repr

mutual

/-- Node: AST nodes (`parser.h`); the constructors follow the shapes the
parser builds from the single C++ struct (binary nodes carry their kind,
`nd_if` an optional else branch, `nd_block` a child list). -/
inductive Node : Type
  | nd_num (val : Rat)
  | nd_lvar (offset : Int)
  | nd_bin (kind : NodeKind) (lhs rhs : Node)
  | nd_return (lhs : Node)
  | nd_if (cond thn : Node) (els : Option Node)
  | nd_block (blocks : NodeList)

/-- NodeList: the `blocks` vector of a block node (a dedicated list type
so that the code generator recurses structurally). -/
inductive NodeList : Type
  | nil
  | cons (hd : Node) (tl : NodeList)

end

/-- gen_lval: `gen_lval` (`compiler.h`) — push the variable's offset as
the store address; fatal error on a non-`LVar` node. -/
def gen_lval (node : Node) (prg : List Instr) : Except String (List Instr) :=
  match node with
  | .nd_lvar offset => .ok (prg ++ [⟨.push, intToWord offset⟩])
  | _ => .error "lvar is not a variable"

mutual

/-- gen: the code generator (`compiler.h`, the `libgymbo` revision).
`ND_RETURN` emits a single `Done` and ignores its expression child;
`ND_IF` lowers the condition, then `Push (3 + |els|); Swap; JmpIf`,
then the else lowering (a `Nop` when absent) extended with
`Push (1 + |then|); Jmp`, then the then lowering; assignments load the
lvalue, lower the rhs and `Swap; Store`; other binary nodes lower both
children and append the matching opcode (`Ne` as `Eq; Not`); anything
else is the fatal `Unsupported Node`. -/
def gen : Node → List Instr → Except String (List Instr)
  | .nd_return _, prg => .ok (prg ++ [⟨.done, 0⟩])
  | .nd_block bs, prg => genBlocks bs prg
  | .nd_if c thn els, prg =>
      match gen c prg with
      | .error e => .error e
      | .ok prg1 =>
          match gen thn [] with
          | .error e => .error e
          | .ok then_prg =>
              match (match els with
                     | some en => gen en []
                     | none => .ok [⟨.nop, 0⟩]) with
              | .error e => .error e
              | .ok els_prg0 =>
                  let els_prg := els_prg0 ++
                    [⟨.push, intToWord (1 + then_prg.length)⟩, ⟨.jmp, 0⟩]
                  .ok (prg1 ++
                    [⟨.push, intToWord (3 + els_prg.length)⟩, ⟨.swap, 0⟩,
                     ⟨.jmpIf, 0⟩] ++ els_prg ++ then_prg)
  | .nd_num v, prg => .ok (prg ++ [⟨.push, FloatToWord v⟩])
  | .nd_lvar off, prg =>
      match gen_lval (.nd_lvar off) prg with
      | .error e => .error e
      | .ok prg1 => .ok (prg1 ++ [⟨.load, 0⟩])
  | .nd_bin .nd_assign l r, prg =>
      match gen_lval l prg with
      | .error e => .error e
      | .ok prg1 =>
          match gen r (prg1 ++ [⟨.load, 0⟩]) with
          | .error e => .error e
          | .ok prg2 => .ok (prg2 ++ [⟨.swap, 0⟩, ⟨.store, 0⟩])
  | .nd_bin k l r, prg =>
      match gen l prg with
      | .error e => .error e
      | .ok prg1 =>
          match gen r prg1 with
          | .error e => .error e
          | .ok prg2 =>
              match k with
              | .nd_add => .ok (prg2 ++ [⟨.add, 0⟩])
              | .nd_sub => .ok (prg2 ++ [⟨.sub, 0⟩])
              | .nd_mul => .ok (prg2 ++ [⟨.mul, 0⟩])
              | .nd_eq => .ok (prg2 ++ [⟨.eq, 0⟩])
              | .nd_ne => .ok (prg2 ++ [⟨.eq, 0⟩, ⟨.not, 0⟩])
              | .nd_lt => .ok (prg2 ++ [⟨.lt, 0⟩])
              | .nd_le => .ok (prg2 ++ [⟨.le, 0⟩])
              | .nd_and => .ok (prg2 ++ [⟨.and, 0⟩])
              | .nd_or => .ok (prg2 ++ [⟨.or, 0⟩])
              | _ => .error "Unsupported Node"

/-- genBlocks: the `for (Node *b : node->blocks)` loop of the `ND_BLOCK`
case. -/
def genBlocks : NodeList → List Instr → Except String (List Instr)
  | .nil, prg => .ok prg
  | .cons b rest, prg =>
      match gen b prg with
      | .error e => .error e
      | .ok prg1 => genBlocks rest prg1

end

/-- compile_ast: `compile_ast` (`compiler.h`) — lower every parsed
top-level node; the trailing null entry of the code vector emits the
final `Done`. -/
def compile_ast : List (Option Node) → List Instr →
    Except String (List Instr)
  | [], prg => .ok prg
  | some n :: rest, prg =>
      match gen n prg with
      | .error e => .error e
      | .ok prg1 => compile_ast rest prg1
  | none :: rest, prg => compile_ast rest (prg ++ [⟨.done, 0⟩])

/-- consumeOp: `consume(token, op)` — consume the current token when it
is the reserved lexeme `op` (`tokenizer.h`). -/
def consumeOp (tokens : List TokenM) (op : String) : Bool × List TokenM :=
  match tokens with
  | t :: rest =>
      if t.kind = .t_reserved ∧ t.str = op then (true, rest)
      else (false, tokens)
  | [] => (false, tokens)

/-- consumeKind: `consume_tok(token, tok)` — consume the current token
when its kind matches. -/
def consumeKind (tokens : List TokenM) (k : TokenKind) :
    Bool × List TokenM :=
  match tokens with
  | t :: rest => if t.kind = k then (true, rest) else (false, tokens)
  | [] => (false, tokens)

/-- consumeIdent: `consume_ident(token)` — consume and return the current
token when it is an identifier. -/
def consumeIdent (tokens : List TokenM) : Option TokenM × List TokenM :=
  match tokens with
  | t :: rest => if t.kind = .t_ident then (some t, rest) else (none, tokens)
  | [] => (none, tokens)

/-- expectOp: `expect(token, user_input, op)` — fatal when the reserved
lexeme `op` is not next. -/
def expectOp (tokens : List TokenM) (op : String) :
    Except String (List TokenM) :=
  match tokens with
  | t :: rest =>
      if t.kind = .t_reserved ∧ t.str = op then .ok rest
      else .error ("expected " ++ op)
  | [] => .error ("expected " ++ op)

/-- expectNumber: `expect_number(token, user_input)` — fatal when the
next token is not a numeric literal. -/
def expectNumber (tokens : List TokenM) :
    Except String (Rat × List TokenM) :=
  match tokens with
  | t :: rest =>
      if t.kind = .t_num then .ok (t.val, rest)
      else .error "expected a number"
  | [] => .error "expected a number"

/-- push: `blocks.emplace_back` on the dedicated block list. -/
def NodeList.push : NodeList → Node → NodeList
  | .nil, n => .cons n .nil
  | .cons h t, n => .cons h (t.push n)

mutual

/-- exprP: `expr = assign` (`parser.h`).  The whole recursive-descent
parser carries a fuel bound (first argument, decremented at each entry);
the C++ recursion depth is bounded by the token count for any input the
theorems below evaluate. -/
def exprP : Nat → List TokenM → Except String (Node × List TokenM)
  | 0, _ => .error "parser recursion limit"
  | fuel + 1, tokens => assignP fuel tokens

/-- assignP: `assign = logical ("=" assign)?`. -/
def assignP : Nat → List TokenM → Except String (Node × List TokenM)
  | 0, _ => .error "parser recursion limit"
  | fuel + 1, tokens => do
      let r ← logicalP fuel tokens
      let c := consumeOp r.2 "="
      if c.1 then
        let r2 ← assignP fuel c.2
        .ok (.nd_bin .nd_assign r.1 r2.1, r2.2)
      else .ok r

/-- logicalP: `logical = equality (("&&"|"||") equality)*`. -/
def logicalP : Nat → List TokenM → Except String (Node × List TokenM)
  | 0, _ => .error "parser recursion limit"
  | fuel + 1, tokens => do
      let r ← equalityP fuel tokens
      logicalLoop fuel r.1 r.2

/-- logicalLoop: the `for (;;)` of `logical`. -/
def logicalLoop (fuel : Nat) (node : Node) (tokens : List TokenM) :
    Except String (Node × List TokenM) :=
  match fuel with
  | 0 => .error "parser recursion limit"
  | fuel + 1 =>
      let ca := consumeOp tokens "&&"
      if ca.1 then do
        let r ← equalityP fuel ca.2
        logicalLoop fuel (.nd_bin .nd_and node r.1) r.2
      else
        let co := consumeOp tokens "||"
        if co.1 then do
          let r ← equalityP fuel co.2
          logicalLoop fuel (.nd_bin .nd_or node r.1) r.2
        else .ok (node, tokens)

/-- equalityP: `equality = relational (("=="|"!=") relational)*`. -/
def equalityP : Nat → List TokenM → Except String (Node × List TokenM)
  | 0, _ => .error "parser recursion limit"
  | fuel + 1, tokens => do
      let r ← relationalP fuel tokens
      equalityLoop fuel r.1 r.2

/-- equalityLoop: the `for (;;)` of `equality`. -/
def equalityLoop (fuel : Nat) (node : Node) (tokens : List TokenM) :
    Except String (Node × List TokenM) :=
  match fuel with
  | 0 => .error "parser recursion limit"
  | fuel + 1 =>
      let ce := consumeOp tokens "=="
      if ce.1 then do
        let r ← relationalP fuel ce.2
        equalityLoop fuel (.nd_bin .nd_eq node r.1) r.2
      else
        let cn := consumeOp tokens "!="
        if cn.1 then do
          let r ← relationalP fuel cn.2
          equalityLoop fuel (.nd_bin .nd_ne node r.1) r.2
        else .ok (node, tokens)

/-- relationalP: `relational = add (("<"|"<="|">"|">=") add)*`; `>` and
`>=` are desugared to `<`/`<=` with the operands swapped. -/
def relationalP : Nat → List TokenM → Except String (Node × List TokenM)
  | 0, _ => .error "parser recursion limit"
  | fuel + 1, tokens => do
      let r ← addP fuel tokens
      relationalLoop fuel r.1 r.2

/-- relationalLoop: the `for (;;)` of `relational`. -/
def relationalLoop (fuel : Nat) (node : Node) (tokens : List TokenM) :
    Except String (Node × List TokenM) :=
  match fuel with
  | 0 => .error "parser recursion limit"
  | fuel + 1 =>
      let cl := consumeOp tokens "<"
      if cl.1 then do
        let r ← addP fuel cl.2
        relationalLoop fuel (.nd_bin .nd_lt node r.1) r.2
      else
        let cle := consumeOp tokens "<="
        if cle.1 then do
          let r ← addP fuel cle.2
          relationalLoop fuel (.nd_bin .nd_le node r.1) r.2
        else
          let cg := consumeOp tokens ">"
          if cg.1 then do
            let r ← addP fuel cg.2
            relationalLoop fuel (.nd_bin .nd_lt r.1 node) r.2
          else
            let cge := consumeOp tokens ">="
            if cge.1 then do
              let r ← addP fuel cge.2
              relationalLoop fuel (.nd_bin .nd_le r.1 node) r.2
            else .ok (node, tokens)

/-- addP: `add = mul (("+"|"-") mul)*`. -/
def addP : Nat → List TokenM → Except String (Node × List TokenM)
  | 0, _ => .error "parser recursion limit"
  | fuel + 1, tokens => do
      let r ← mulP fuel tokens
      addLoop fuel r.1 r.2

/-- addLoop: the `for (;;)` of `add`. -/
def addLoop (fuel : Nat) (node : Node) (tokens : List TokenM) :
    Except String (Node × List TokenM) :=
  match fuel with
  | 0 => .error "parser recursion limit"
  | fuel + 1 =>
      let cp := consumeOp tokens "+"
      if cp.1 then do
        let r ← mulP fuel cp.2
        addLoop fuel (.nd_bin .nd_add node r.1) r.2
      else
        let cm := consumeOp tokens "-"
        if cm.1 then do
          let r ← mulP fuel cm.2
          addLoop fuel (.nd_bin .nd_sub node r.1) r.2
        else .ok (node, tokens)

/-- mulP: `mul = unary (("*"|"/") unary)*`. -/
def mulP : Nat → List TokenM → Except String (Node × List TokenM)
  | 0, _ => .error "parser recursion limit"
  | fuel + 1, tokens => do
      let r ← unaryP fuel tokens
      mulLoop fuel r.1 r.2

/-- mulLoop: the `for (;;)` of `mul`. -/
def mulLoop (fuel : Nat) (node : Node) (tokens : List TokenM) :
    Except String (Node × List TokenM) :=
  match fuel with
  | 0 => .error "parser recursion limit"
  | fuel + 1 =>
      let cm := consumeOp tokens "*"
      if cm.1 then do
        let r ← unaryP fuel cm.2
        mulLoop fuel (.nd_bin .nd_mul node r.1) r.2
      else
        let cd := consumeOp tokens "/"
        if cd.1 then do
          let r ← unaryP fuel cd.2
          mulLoop fuel (.nd_bin .nd_div node r.1) r.2
        else .ok (node, tokens)

/-- unaryP: `unary = ("+"|"-")? unary | primary`; `-x` becomes
`0 - x`. -/
def unaryP : Nat → List TokenM → Except String (Node × List TokenM)
  | 0, _ => .error "parser recursion limit"
  | fuel + 1, tokens =>
      let cp := consumeOp tokens "+"
      if cp.1 then unaryP fuel cp.2
      else
        let cm := consumeOp tokens "-"
        if cm.1 then do
          let r ← unaryP fuel cm.2
          .ok (.nd_bin .nd_sub (.nd_num 0) r.1, r.2)
        else primaryP fuel tokens

/-- primaryP: `primary = "(" expr ")" | num | ident`. -/
def primaryP : Nat → List TokenM → Except String (Node × List TokenM)
  | 0, _ => .error "parser recursion limit"
  | fuel + 1, tokens =>
      let cl := consumeOp tokens "("
      if cl.1 then do
        let r ← exprP fuel cl.2
        let ts ← expectOp r.2 ")"
        .ok (r.1, ts)
      else
        let ci := consumeIdent tokens
        match ci.1 with
        | some tok => .ok (.nd_lvar tok.var_id, ci.2)
        | none => do
            let r ← expectNumber tokens
            .ok (.nd_num r.1, r.2)

/-- stmtP: `stmt = block | "return" expr ";" | "if" … | expr ";"`
(`parser.h`). -/
def stmtP : Nat → List TokenM → Except String (Node × List TokenM)
  | 0, _ => .error "parser recursion limit"
  | fuel + 1, tokens =>
      let cb := consumeOp tokens "\x7b"
      if cb.1 then blockLoop fuel .nil cb.2
      else
        let cr := consumeKind tokens .t_return
        if cr.1 then do
          let r ← exprP fuel cr.2
          let ts ← expectOp r.2 ";"
          .ok (.nd_return r.1, ts)
        else
          let ci := consumeKind tokens .t_if
          if ci.1 then do
            let ts1 ← expectOp ci.2 "("
            let rc ← exprP fuel ts1
            let ts2 ← expectOp rc.2 ")"
            let rt ← stmtP fuel ts2
            let ce := consumeKind rt.2 .t_else
            if ce.1 then do
              let re ← stmtP fuel ce.2
              .ok (.nd_if rc.1 rt.1 (some re.1), re.2)
            else .ok (.nd_if rc.1 rt.1 none, rt.2)
          else do
            let r ← exprP fuel tokens
            let ts ← expectOp r.2 ";"
            .ok (r.1, ts)

/-- blockLoop: the `while (true)` of the block case of `stmt`. -/
def blockLoop (fuel : Nat) (acc : NodeList) (tokens : List TokenM) :
    Except String (Node × List TokenM) :=
  match fuel with
  | 0 => .error "parser recursion limit"
  | fuel + 1 => do
      let r ← stmtP fuel tokens
      let acc' := acc.push r.1
      let cb := consumeOp r.2 "\x7d"
      if cb.1 then .ok (.nd_block acc', cb.2)
      else blockLoop fuel acc' r.2

end

/-- genAst: `generate_ast` (`parser.h`) — parse statements until `Eof`,
then append the null sentinel. -/
def genAst : Nat → List TokenM → List (Option Node) →
    Except String (List (Option Node))
  | 0, _, _ => .error "parser recursion limit"
  | fuel + 1, tokens, acc =>
      match tokens with
      | t :: _ =>
          if t.kind = .t_eof then .ok (acc ++ [none])
          else do
            let r ← stmtP fuel tokens
            genAst fuel r.2 (acc ++ [some r.1])
      | [] => .ok (acc ++ [none])

/-- compileSource: the front-end pipeline — tokenize, parse, generate
code (`compile` of `pipeline.h`: `tokenize`, `generate_ast`,
`compile_ast`). -/
def compileSource (s : String) : Except String (List Instr) :=
  match tokenize s [] with
  | .error e => .error e
  | .ok r =>
      match genAst ((r.1.length + 1) * 32) r.1 [] with
      | .error e => .error e
      | .ok code => compile_ast code []
end gymbo

deriving instance DecidableEq for Except

namespace gymbo

/-- C1: on a `JmpIf` instruction, a state whose stack top is a condition
above an `SCon` address term yields exactly two successors, the
true-branch first (pc advanced by `wordToInt (addr.word - 2)` in uint32
arithmetic, path constraints extended with the condition simplified
against concrete memory), then the false-branch (pc advanced by 1, path
constraints extended with `SNot` of that simplified condition). -/
theorem symStep_jmpIf_two_successors (s : SymState) (cond : Sym)
    (w : Word32) (rest : List Sym) (iw : Word32)
    (hstack : s.symbolic_stack = cond :: Sym.scon w :: rest) :
    symStep s ⟨InstrType.jmpIf, iw⟩ =
      [{ s with pc := s.pc + wordToInt (wSub w 2),
                symbolic_stack := rest,
                path_constraints :=
                  s.path_constraints ++ [cond.psimplify s.mem] },
       { s with pc := s.pc + 1,
                symbolic_stack := rest,
                path_constraints :=
                  s.path_constraints ++ [.snot (cond.psimplify s.mem)] }] := by
  simp [symStep, hstack, Sym.symtype, Sym.word]

/-- C1 witness: the theorem applied at a concrete state. -/
theorem symStep_jmpIf_two_successors_witness :
    symStep { symbolic_stack := [Sym.scon 9, Sym.scon 4] }
        ⟨InstrType.jmpIf, 0⟩ =
      [{ pc := 2, symbolic_stack := [], path_constraints := [Sym.scon 9] },
       { pc := 1, symbolic_stack := [],
         path_constraints := [Sym.snot (Sym.scon 9)] }] := by
  have h := symStep_jmpIf_two_successors
    { symbolic_stack := [Sym.scon 9, Sym.scon 4] } (Sym.scon 9) 4 [] 0 rfl
  rw [h]
  decide

/-- C2 counterexample: a state reachable from an initial state with empty
`smem` in which both `mem[0]` and `smem[0]` are set — the exclusivity
invariant fails (the final `Store` of an `SCon` value does not clear the
existing `smem` entry). -/
theorem symStep_reaches_mem_smem_overlap :
    SymReach {} c2Final ∧
      mapFind? c2Final.mem 0 = some 1 ∧
      mapFind? c2Final.smem 0 = some (Sym.sany 1) := by
  have h1 : SymReach ({} : SymState)
      { pc := 1, symbolic_stack := [Sym.scon 1] } :=
    .step ⟨.push, 1⟩ (.refl _) (by decide)
  have h2 : SymReach ({} : SymState)
      { pc := 2, symbolic_stack := [Sym.sany 1] } :=
    .step ⟨.load, 0⟩ h1 (by decide)
  have h3 : SymReach ({} : SymState)
      { pc := 3, symbolic_stack := [Sym.scon 0, Sym.sany 1] } :=
    .step ⟨.push, 0⟩ h2 (by decide)
  have h4 : SymReach ({} : SymState)
      { pc := 4, symbolic_stack := [Sym.sany 0, Sym.sany 1] } :=
    .step ⟨.load, 0⟩ h3 (by decide)
  have h5 : SymReach ({} : SymState)
      { pc := 5, smem := [(0, Sym.sany 1)] } :=
    .step ⟨.store, 0⟩ h4 (by decide)
  have h6 : SymReach ({} : SymState)
      { pc := 6, smem := [(0, Sym.sany 1)],
        symbolic_stack := [Sym.scon 1] } :=
    .step ⟨.push, 1⟩ h5 (by decide)
  have h7 : SymReach ({} : SymState)
      { pc := 7, var_cnt := 1, smem := [(0, Sym.sany 1)],
        symbolic_stack := [Sym.sany 0, Sym.scon 1] } :=
    .step ⟨.read, 0⟩ h6 (by decide)
  have h8 : SymReach ({} : SymState) c2Final :=
    .step ⟨.store, 0⟩ h7 (by decide)
  exact ⟨h8, by decide, by decide⟩

/-- C2 amended: `Store` of an `SCon` value writes `mem` at
`wordToInt addr.var_idx` and leaves `smem` untouched, so an existing
`smem` entry at that address persists alongside the new `mem` entry —
exclusivity of `mem` and `smem` is not preserved by `Store`. -/
theorem symStep_store_scon_preserves_smem (s : SymState) (addr : Sym)
    (v : Word32) (rest : List Sym) (iw : Word32)
    (hstack : s.symbolic_stack = addr :: Sym.scon v :: rest) :
    symStep s ⟨InstrType.store, iw⟩ =
      [{ s with pc := s.pc + 1,
                symbolic_stack := rest,
                mem :=
                  if (mapFind? s.mem (wordToInt addr.var_idx)).isNone then
                    mapEmplace s.mem (wordToInt addr.var_idx) v
                  else mapSet s.mem (wordToInt addr.var_idx) v }] := by
  by_cases h : (mapFind? s.mem (wordToInt addr.var_idx)).isNone <;>
    simp [symStep, hstack, Sym.symtype, Sym.word, h]

/-- C2 amended witness: storing `SCon 1` at address 0 while `smem[0]` is
set yields a state with both maps populated at 0. -/
theorem symStep_store_scon_preserves_smem_witness :
    symStep { smem := [(0, Sym.sany 1)],
              symbolic_stack := [Sym.sany 0, Sym.scon 1] }
        ⟨InstrType.store, 0⟩ =
      [{ pc := 1, mem := [(0, 1)], smem := [(0, Sym.sany 1)] }] := by
  have h := symStep_store_scon_preserves_smem
    { smem := [(0, Sym.sany 1)],
      symbolic_stack := [Sym.sany 0, Sym.scon 1] }
    (Sym.sany 0) 1 [] 0 rfl
  rw [h]
  decide

/-- C7: `symStep` on a `Jmp` whose address term is not an `SCon` (here an
`SAny`) still emits one successor (advancing pc by the reinterpretation
of the term's indeterminate `word` field), while `JmpIf` with a non-SCon
address emits no successor.  The claim (and spec §7) says both emit no
successors; the `Jmp` case lacks the `SCon` guard. -/
theorem symStep_jmp_non_scon_emits_one :
    (symStep { symbolic_stack := [Sym.sany 0] } ⟨InstrType.jmp, 0⟩).length
        = 1 ∧
    (symStep { symbolic_stack := [Sym.scon 9, Sym.sany 0] }
        ⟨InstrType.jmpIf, 0⟩).length = 0 := by
  decide

/-- C8: the `SymProb` product `(a/b)·(c/d)` follows the textual
cancellation rule: `(a/d)` when `toString true` of `b` and `c` agree,
otherwise `(c/b)` when those of `a` and `d` agree, otherwise
`(a·c)/(b·d)`. -/
theorem symProb_mul_cancellation (a b c d : Sym) :
    SymProb.mul ⟨a, b⟩ ⟨c, d⟩ =
      if b.toString true = c.toString true then ⟨a, d⟩
      else if a.toString true = d.toString true then ⟨c, b⟩
      else ⟨.smul a c, .smul b d⟩ := rfl

/-- mapFind?_isSome_of_mem: a key occurring in an association list is
found by `mapFind?`. -/
theorem mapFind?_isSome_of_mem {α β : Type} [DecidableEq α]
    {m : List (α × β)} {p : α × β} (h : p ∈ m) :
    (mapFind? m p.1).isSome := by
  induction m with
  | nil => cases h
  | cons q rest ih =>
      by_cases hq : q.1 = p.1
      · simp [mapFind?, hq]
      · rcases List.mem_cons.mp h with h1 | h1
        · rw [h1] at hq; exact absurd rfl hq
        · simpa [mapFind?, hq] using ih h1

/-- foldl_emplace_present: emplacing keys that are all already present
leaves the accumulator unchanged. -/
theorem foldl_emplace_present {l acc : List (Int × Rat)}
    (h : ∀ p ∈ l, (mapFind? acc p.1).isSome) :
    l.foldl (fun a r => mapEmplace a r.1 (wAbs r.2)) acc = acc := by
  induction l with
  | nil => rfl
  | cons p rest ih =>
      have hp := h p (List.mem_cons_self _ _)
      have hstep : mapEmplace acc p.1 (wAbs p.2) = acc := by
        simp [mapEmplace, hp]
      rw [List.foldl_cons, hstep]
      exact ih (fun q hq => h q (List.mem_cons_of_mem _ hq))

/-- C10: `Grad::abs` is the identity — it inserts via `emplace` on keys
that are already present, so no entry is ever replaced by its absolute
value. -/
theorem grad_abs_identity (g : Grad) : g.abs = g := by
  cases g with
  | mk val =>
      show Grad.mk (val.foldl (fun a r => mapEmplace a r.1 (wAbs r.2)) val)
          = Grad.mk val
      congr 1
      exact foldl_emplace_present (fun p hp => mapFind?_isSome_of_mem hp)

/-- C3: evaluation of the code at the failing input
`P = [SNot (SNot (var_0 < 0))]`, `mem = {0 ↦ 5}`, default optimizer
(eps = 1), `use_dpll = true`.  (1) The DPLL abstraction of `P` is
`Not (Not (Var "(var_0<0)"))`; (2) `fixNegations` eliminates only one of
the two negations (its comment claims `!!Var = Var`), leaving
`Not (Var ...)`, so DPLL assigns the atom `false` and the solver is run
on `[SNot atom]`; (3) that run succeeds immediately with the
memory-initialized parameters `{0 ↦ 5}` unchanged, so the SMT layer
reports SAT with these params; (4) yet the atom `SNot (SNot (var_0<0))`
of `P` evaluates to 6 > 0 under them, violating the claimed invariant. -/
theorem dpll_double_negation_breaks_sat_invariant :
    (gymbosat.pathconstraints2expr [.snot (.snot c3Atom)] []).1 =
        .enot (.enot (.evar "(var_0<0)")) ∧
    gymbosat.Expr.fixNegations (.enot (.enot (.evar "(var_0<0)"))) =
        .enot (.evar "(var_0<0)") ∧
    gymbosat.dpllNewConstraints [("(var_0<0)", false)]
        [("(var_0<0)", c3Atom)] = [.snot c3Atom] ∧
    GDOptimizer.solve {} [.snot c3Atom] [(0, 5)] (fun _ => 0) true =
        (true, [(0, 5)]) ∧
    Sym.eval (.snot (.snot c3Atom)) [(0, 5)] 1 = 6 := by
  refine ⟨by decide, by decide, by decide, ?_, by decide⟩
  decide

/-- getD_concat_self: indexing a concatenation at the left length hits
the appended element. -/
theorem getD_concat_self {α : Type} (l : List α) (x d : α) :
    (l ++ [x]).getD l.length d = x := by
  induction l with
  | nil => rfl
  | cons a t ih =>
      show (t ++ [x]).getD t.length d = x
      exact ih

/-- conjAll_cons: the conjunction of a nonempty list is the left fold of
its tail over its head. -/
theorem conjAll_cons (a : Sym) (rest : List Sym) :
    conjAll (a :: rest) = rest.foldl (fun x c => Sym.sand x c) a := by
  simp [conjAll]

/-- C9: with `has_observed_p_cond` set and at least two path
constraints, `pbranch` multiplies `p` (by the cancellation rule) with
`cond_p = N/D`, where `N` is the conjunction of all constraints and `D`
the conjunction of all but the last. -/
theorem pbranch_conditional_probability (s : SymState)
    (hobs : s.has_observed_p_cond = true)
    (hn : 2 ≤ s.path_constraints.length) :
    (pbranch s).p =
      s.p.mul ⟨conjAll s.path_constraints,
               conjAll s.path_constraints.dropLast⟩ := by
  obtain ⟨a, rest, hcs⟩ : ∃ a rest, s.path_constraints = a :: rest := by
    cases hh : s.path_constraints with
    | nil => rw [hh] at hn; exact absurd hn (by decide)
    | cons x xs => exact ⟨x, xs, rfl⟩
  rcases rest.eq_nil_or_concat with rfl | ⟨mid, last, rfl⟩
  · rw [hcs] at hn; exact absurd hn (by norm_num)
  · rw [List.concat_eq_append] at hcs
    have hd : s.path_constraints.dropLast = a :: mid := by
      rw [hcs, ← List.cons_append, List.dropLast_concat]
    have hgetD :
        s.path_constraints.getD (s.path_constraints.length - 1) junkSym
          = last := by
      rw [hcs]
      simp only [List.length_cons, List.length_append, List.length_singleton,
        Nat.add_sub_cancel]
      show (mid ++ [last]).getD mid.length junkSym = last
      exact getD_concat_self mid last junkSym
    have hnum : conjAll s.path_constraints =
        Sym.sand (mid.foldl (fun x c => Sym.sand x c) a) last := by
      rw [hcs, conjAll_cons, List.foldl_append]
      rfl
    have hden : conjAll s.path_constraints.dropLast =
        mid.foldl (fun x c => Sym.sand x c) a := by
      rw [hd, conjAll_cons]
    rw [hnum, hden]
    simp only [pbranch, hobs, if_true]
    rw [hcs]
    simp only [List.drop_one, List.tail_cons, List.dropLast_concat,
      List.headD_cons]
    rw [← hcs, hgetD]

/-- C9 witness: the theorem applied at a concrete two-constraint state
with the default probability 1/1; the cancellation rule does not fire
and the product keeps both factors. -/
theorem pbranch_conditional_probability_witness :
    (pbranch
        { path_constraints := [Sym.slt (.sany 0) (.scon 0),
                               Sym.sle (.sany 1) (.scon 2)],
          has_observed_p_cond := true }).p =
      ⟨.smul (.scon 1) (.sand (.slt (.sany 0) (.scon 0))
                              (.sle (.sany 1) (.scon 2))),
       .smul (.scon 1) (.slt (.sany 0) (.scon 0))⟩ := by
  have h := pbranch_conditional_probability
    { path_constraints := [Sym.slt (.sany 0) (.scon 0),
                           Sym.sle (.sany 1) (.scon 2)],
      has_observed_p_cond := true } rfl (by decide)
  rw [h]
  decide

/-- get?_append_left: indexing a concatenation within the left part. -/
theorem get?_append_left {α : Type} (l l2 : List α) (a : Nat)
    (h : a < l.length) : (l ++ l2).get? a = l.get? a := by
  induction l generalizing a with
  | nil => cases h
  | cons x t ih =>
      cases a with
      | zero => rfl
      | succ n => simpa using ih n (by simpa using h)

/-- get?_set_ne: `set` does not affect other indices. -/
theorem get?_set_ne {α : Type} (l : List α) (i j : Nat) (x : α)
    (hij : i ≠ j) : (l.set j x).get? i = l.get? i := by
  induction l generalizing i j with
  | nil => rfl
  | cons y t ih =>
      cases j with
      | zero =>
          cases i with
          | zero => exact absurd rfl hij
          | succ n => rfl
      | succ m =>
          cases i with
          | zero => rfl
          | succ n => simpa using ih n m (fun hh => hij (by rw [hh]))

/-- get?_set_self: `set` at an in-range index stores the new value. -/
theorem get?_set_self {α : Type} (l : List α) (j : Nat) (x : α)
    (hj : j < l.length) : (l.set j x).get? j = some x := by
  induction l generalizing j with
  | nil => cases hj
  | cons y t ih =>
      cases j with
      | zero => rfl
      | succ m => simpa using ih m (by simpa using hj)

/-- get?_isSome_lt: a successful lookup is in range. -/
theorem get?_isSome_lt {α : Type} (l : List α) (i : Nat)
    (h : (l.get? i).isSome) : i < l.length := by
  induction l generalizing i with
  | nil => simp [List.get?] at h
  | cons y t ih =>
      cases i with
      | zero => simp
      | succ n =>
          have := ih n (by simpa using h)
          simpa using Nat.succ_lt_succ this

/-- heapSetNext_get?_dataPrev: rewriting a `next` pointer preserves every
node's data and `prev` pointer. -/
theorem heapSetNext_get?_dataPrev (h : HeapH) (b : Nat) (v : Option Nat)
    (a : Nat) :
    ((heapSetNext h b v).get? a).map (fun n => (n.data, n.prev)) =
      (h.get? a).map (fun n => (n.data, n.prev)) := by
  unfold heapSetNext
  cases hb : h.get? b with
  | none => rfl
  | some n =>
      by_cases hab : a = b
      · subst hab
        rw [get?_set_self h a _ (get?_isSome_lt h a (by rw [hb]; rfl)), hb]
        rfl
      · rw [get?_set_ne h a b _ hab]

/-- heapSetNext_get?_data: rewriting a `next` pointer preserves every
node's data. -/
theorem heapSetNext_get?_data (h : HeapH) (b : Nat) (v : Option Nat)
    (a : Nat) :
    ((heapSetNext h b v).get? a).map LLNodeH.data =
      (h.get? a).map LLNodeH.data := by
  unfold heapSetNext
  cases hb : h.get? b with
  | none => rfl
  | some n =>
      by_cases hab : a = b
      · subst hab
        rw [get?_set_self h a _ (get?_isSome_lt h a (by rw [hb]; rfl)), hb]
        rfl
      · rw [get?_set_ne h a b _ hab]

/-- heapSetPrev_get?_of_ne: rewriting a `prev` pointer leaves other
addresses untouched. -/
theorem heapSetPrev_get?_of_ne (h : HeapH) (b : Nat) (v : Option Nat)
    (a : Nat) (hab : a ≠ b) :
    (heapSetPrev h b v).get? a = h.get? a := by
  unfold heapSetPrev
  cases hb : h.get? b with
  | none => rfl
  | some n => rw [get?_set_ne h a b _ hab]

/-- C4 counterexample: after one push onto the copy's symbolic stack (the
copy of `SymState::copy` shares the linked-list node addresses), the
parent's own stack observation `len()` changes from 1 to 2 — the parent
is not observationally unchanged. -/
theorem copy_push_changes_parent_len :
    c4Push2 = llPush c4Push1.1 (c4Parent.copy).symbolic_stack (Sym.scon 2) ∧
    llLen c4Push1.1 c4Parent.symbolic_stack = 1 ∧
    llLen c4Push2.1 c4Parent.symbolic_stack = 2 := by
  decide

/-- C4 amended: `copy()` duplicates `mem`, `smem`, `path_constraints` and
`p` by value and shares the symbolic stack's node chain; pushing onto the
copy's stack leaves every pre-existing node's data and `prev` pointer —
hence the parent's `back()`/`pop()` view — unchanged, though the parent's
head-to-tail traversal observes the mutation. -/
theorem copy_stack_tail_view_preserved (s : SymStateRef) (h : HeapH)
    (d : Sym) (t : Nat) (htail : s.symbolic_stack.tail = some t)
    (hlt : t < h.length) :
    s.copy.symbolic_stack = s.symbolic_stack ∧
    s.copy.mem = s.mem ∧ s.copy.smem = s.smem ∧
    s.copy.path_constraints = s.path_constraints ∧ s.copy.p = s.p ∧
    llBack (llPush h s.copy.symbolic_stack d).1 s.symbolic_stack =
      llBack h s.symbolic_stack ∧
    ∀ a, a < h.length →
      ((llPush h s.copy.symbolic_stack d).1.get? a).map
          (fun n => (n.data, n.prev)) =
        (h.get? a).map (fun n => (n.data, n.prev)) := by
  refine ⟨rfl, rfl, rfl, rfl, rfl, ?_, ?_⟩
  · show llBack (llPush h s.symbolic_stack d).1 s.symbolic_stack
        = llBack h s.symbolic_stack
    unfold llPush llBack
    rw [htail]
    cases hhd : s.symbolic_stack.head with
    | none =>
        dsimp only
        rw [get?_append_left h _ t hlt]
    | some x =>
        dsimp only
        rw [heapSetPrev_get?_of_ne _ h.length _ t (Nat.ne_of_lt hlt),
          heapSetNext_get?_data, get?_append_left h _ t hlt]
  · intro a ha
    show ((llPush h s.symbolic_stack d).1.get? a).map
        (fun n => (n.data, n.prev)) = _
    unfold llPush
    rw [htail]
    cases hhd : s.symbolic_stack.head with
    | none =>
        dsimp only
        rw [get?_append_left h _ a ha]
    | some x =>
        dsimp only
        rw [heapSetPrev_get?_of_ne _ h.length _ a (Nat.ne_of_lt ha),
          heapSetNext_get?_dataPrev, get?_append_left h _ a ha]

/-- C4 amended witness: the theorem applied at the concrete one-node
parent — the parent's `back()` is unchanged by the copy's push. -/
theorem copy_stack_tail_view_preserved_witness :
    llBack (llPush c4Push1.1 (c4Parent.copy).symbolic_stack (Sym.scon 2)).1
        c4Parent.symbolic_stack = llBack c4Push1.1 c4Parent.symbolic_stack := by
  exact (copy_stack_tail_view_preserved c4Parent c4Push1.1 (Sym.scon 2) 0
    (by decide) (by decide)).2.2.2.2.2.1

/-- C5 counterexample: on `return 1`, `gen` emits only `Done`; it does not
first emit the lowering of the expression child (`Push 1`). -/
theorem gen_return_ignores_expression :
    gen (.nd_return (.nd_num 1)) [] = Except.ok [⟨InstrType.done, 0⟩] ∧
    gen (.nd_return (.nd_num 1)) [] ≠
      Except.map (fun p => p ++ [⟨InstrType.done, 0⟩])
        (gen (.nd_num 1) []) := by
  decide

/-- C5 amended: `gen` on an `ND_RETURN` node appends exactly one `Done`
instruction, ignoring the expression child entirely. -/
theorem gen_return_emits_done_only (e : Node) (prg : List Instr) :
    gen (.nd_return e) prg = Except.ok (prg ++ [⟨InstrType.done, 0⟩]) := rfl

/-- C6: compiling `if (a > 3) return 1;` through the full front end
(tokenize, parse with `>` desugared to `<` with swapped operands,
generate code, append the top-level Done) yields exactly the
instruction-type sequence Push, Push, Load, Lt, Push, Swap, JmpIf, Nop,
Push, Jmp, Done, Done. -/
theorem compile_single_inequality :
    (compileSource "if (a > 3) return 1;").map (List.map Instr.instr) =
      Except.ok [InstrType.push, .push, .load, .lt, .push, .swap, .jmpIf,
                 .nop, .push, .jmp, .done, .done] := by
  decide
end gymbo
